import Mathlib

/-!
Verification development for the pharmacrm trust layer.

This file gives a shallow embedding of the trust-layer code of the
repository (the field vault in `src/backend/src/utils/encryption.ts`, the
consent gate in `src/backend/src/middleware/consent-check.ts`, the audit
writer `createAuditEntry`, the `HCPService` subject repository and the
`ComplianceService` integrity verifier), and proves or refutes the frozen
claims about it.

Strings are modelled as lists of byte values (`Str`).  The AES core of the
crypto library is an external primitive and is modelled as an abstract
block cipher parameter; the CBC chaining, PKCS7 padding and key checks
around it are translated from the code.  Database tables are lists of
rows; each awaited statement of a route handler commits its effect
immediately, so a later failure leaves earlier effects in place.
-/

namespace PharmaCRM

/-- Byte strings: the model of JS strings (one code unit per entry). -/
abbrev Str := List Nat

/-- Conversion of a Lean string literal into its byte-string model. -/
def str (s : String) : Str := s.data.map Char.toNat

/-- ASCII lower-casing of one byte, the model of `String#toLowerCase`. -/
def lowerByte (b : Nat) : Nat := if 65 ≤ b ∧ b ≤ 90 then b + 32 else b

/-- Model of `value.toLowerCase()`. -/
def toLower (s : Str) : Str := s.map lowerByte

/-- Flat JSON values, enough for every metadata object the trust layer writes. -/
inductive JVal where
  | jnull : JVal
  | jbool (b : Bool) : JVal
  | jnum (n : Int) : JVal
  | jstr (s : Str) : JVal
deriving DecidableEq

/-- A flat JSON object: an ordered list of key/value pairs. -/
abbrev JObj := List (Str × JVal)

-- ─── Field Vault (src/backend/src/utils/encryption.ts) ─────────────────

/-- The `config.encryption` section: a hex key and IV from the environment.
An empty `key` models the falsy `''` default that makes `encryptPII` throw. -/
structure EncConfig where
  key : Str
  iv : Str
deriving DecidableEq

/-- The AES-256 core of the crypto library, abstract: a keyed block
permutation `enc` and its inverse `dec` on 16-byte blocks. -/
structure BlockCipher where
  enc : Str → Str
  dec : Str → Str

/-- Bytewise xor of two equal-length byte strings (CBC chaining). -/
def xorBytes (a b : Str) : Str := List.zipWith Nat.xor a b

/-- Split a byte string into consecutive 16-byte blocks; the first argument
is recursion fuel, always supplied as at least the list length. -/
def toBlocksAux : Nat → Str → List Str
  | _, [] => []
  | 0, _ :: _ => []
  | fuel + 1, b :: bs => ((b :: bs).take 16) :: toBlocksAux fuel ((b :: bs).drop 16)

/-- Split a byte string into consecutive 16-byte blocks. -/
def toBlocks (bs : Str) : List Str := toBlocksAux bs.length bs

/-- PKCS7 padding to a multiple of the 16-byte block size. -/
def pkcs7Pad (bs : Str) : Str :=
  bs ++ List.replicate (16 - bs.length % 16) (16 - bs.length % 16)

/-- PKCS7 unpadding: drop as many bytes as the last byte says. -/
def pkcs7Unpad (bs : Str) : Str :=
  bs.take (bs.length - (bs.getLast?.getD 0))

/-- CBC encryption of a list of plaintext blocks with chaining value `prev`. -/
def cbcEncryptBlocks (E : Str → Str) (prev : Str) : List Str → List Str
  | [] => []
  | p :: ps =>
    let c := E (xorBytes p prev)
    c :: cbcEncryptBlocks E c ps

/-- CBC decryption of a list of ciphertext blocks with chaining value `prev`. -/
def cbcDecryptBlocks (D : Str → Str) (prev : Str) : List Str → List Str
  | [] => []
  | c :: cs => xorBytes (D c) prev :: cbcDecryptBlocks D c cs

/-- Error kinds surfaced by the trust layer. -/
inductive Err where
  | keyNotConfigured : Err
  | notFound : Err
  | auditWriteFailed : Err
deriving DecidableEq

deriving instance DecidableEq for Except

/-- The ciphertext produced for `plaintext` once the key check has passed:
PKCS7 pad, split into blocks, CBC-encrypt under the configured IV, rejoin. -/
def encPipeline (C : BlockCipher) (cfg : EncConfig) (plaintext : Str) : Str :=
  (cbcEncryptBlocks C.enc cfg.iv (toBlocks (pkcs7Pad plaintext))).flatten

/-- `encryptPII` from `encryption.ts`: throws when no key material is
configured, otherwise AES-CBC encrypts under the fixed key/IV pair. -/
def encryptPII (C : BlockCipher) (cfg : EncConfig) (plaintext : Str) : Except Err Str :=
  if cfg.key.isEmpty then .error .keyNotConfigured
  else .ok (encPipeline C cfg plaintext)

/-- `decryptPII` from `encryption.ts`: the inverse pipeline. -/
def decryptPII (C : BlockCipher) (cfg : EncConfig) (ciphertext : Str) : Except Err Str :=
  if cfg.key.isEmpty then .error .keyNotConfigured
  else .ok (pkcs7Unpad (cbcDecryptBlocks C.dec cfg.iv (toBlocks ciphertext)).flatten)

/-- `hashForIndex` from `encryption.ts`: `SHA256(value + config.encryption.key)`
with the digest function abstract. -/
def hashForIndex (digest : Str → Str) (key : Str) (value : Str) : Str :=
  digest (value ++ key)

-- ─── Data model (migration 001_initial_schema.ts) ──────────────────────

/-- The audit action enum of the `audit_log` table. -/
inductive AuditAction where
  | create | update | delete | view | export | login | logout
  | consent_change | ai_decision
deriving DecidableEq

/-- The consent channel enum of the `consents` table. -/
inductive ConsentType where
  | email | phone | visit | remote_detailing | data_processing | marketing
deriving DecidableEq

/-- The consent status enum of the `consents` table. -/
inductive ConsentStatus where
  | granted | revoked | pending | expired
deriving DecidableEq

/-- One row of the `hcps` table. -/
structure HCPRow where
  id : Nat
  external_id : Option Str
  first_name_encrypted : Str
  first_name_hash : Str
  last_name_encrypted : Str
  last_name_hash : Str
  email_encrypted : Option Str
  email_hash : Option Str
  phone_encrypted : Option Str
  phone_hash : Option Str
  specialty : Str
  sub_specialty : Option Str
  influence_level : Str
  primary_institution_id : Option Nat
  territory_id : Option Nat
  title : Option Str
  years_of_practice : Option Nat
  languages : List Str
  therapeutic_areas : List Str
  metadata : JObj
  is_active : Bool
  created_at : Nat
  updated_at : Nat
  deleted_at : Option Nat
deriving DecidableEq

/-- One row of the append-only `consents` table. -/
structure ConsentRow where
  id : Nat
  hcp_id : Nat
  consent_type : ConsentType
  status : ConsentStatus
  granted_at : Option Nat
  revoked_at : Option Nat
  expires_at : Option Nat
  source : Option Str
  evidence_url : Option Str
  recorded_by : Nat
  notes : Option Str
  created_at : Nat
deriving DecidableEq

/-- One row of the append-only `audit_log` table. -/
structure AuditEntry where
  id : Nat
  user_id : Option Nat
  action : AuditAction
  entity_type : Str
  entity_id : Option Nat
  previous_state : Option JObj
  new_state : Option JObj
  ip_address : Str
  user_agent : Str
  metadata : JObj
  created_at : Nat
deriving DecidableEq

/-- The three trust-layer tables of the database. -/
structure DB where
  hcps : List HCPRow
  consents : List ConsentRow
  audit_log : List AuditEntry
deriving DecidableEq

-- ─── Subject Repository (HCPService, omnichannel.routes.ts) ────────────

/-- `CreateHCPInput` from `hcp.schema.ts` (strings post zod validation). -/
structure CreateHCPInput where
  externalId : Option Str
  firstName : Str
  lastName : Str
  email : Option Str
  phone : Option Str
  specialty : Str
  subSpecialty : Option Str
  influenceLevel : Str
  primaryInstitutionId : Option Nat
  territoryId : Option Nat
  title : Option Str
  yearsOfPractice : Option Nat
  languages : Option (List Str)
  therapeuticAreas : Option (List Str)
  metadata : Option JObj
deriving DecidableEq

/-- `UpdateHCPInput`: every field of the create schema made optional. -/
structure UpdateHCPInput where
  externalId : Option Str := none
  firstName : Option Str := none
  lastName : Option Str := none
  email : Option Str := none
  phone : Option Str := none
  specialty : Option Str := none
  subSpecialty : Option Str := none
  influenceLevel : Option Str := none
  primaryInstitutionId : Option Nat := none
  territoryId : Option Nat := none
  title : Option Str := none
  yearsOfPractice : Option Nat := none
  languages : Option (List Str) := none
  therapeuticAreas : Option (List Str) := none
  metadata : Option JObj := none
deriving DecidableEq

/-- `CreateConsentInput` from `hcp.schema.ts`. -/
structure CreateConsentInput where
  hcpId : Nat
  consentType : ConsentType
  status : ConsentStatus
  expiresAt : Option Nat
  source : Option Str
  evidenceUrl : Option Str
  notes : Option Str
deriving DecidableEq

/-- The decrypted HCP view (`HCPRecord` interface). -/
structure HCPRecord where
  id : Nat
  externalId : Option Str
  firstName : Str
  lastName : Str
  email : Option Str
  phone : Option Str
  specialty : Str
  subSpecialty : Option Str
  influenceLevel : Str
  primaryInstitutionId : Option Nat
  territoryId : Option Nat
  title : Option Str
  yearsOfPractice : Option Nat
  languages : List Str
  therapeuticAreas : List Str
  metadata : JObj
  isActive : Bool
  createdAt : Nat
  updatedAt : Nat
deriving DecidableEq

/-- Decrypt an optional ciphertext column (JS truthiness on `null`). -/
def decryptOpt (C : BlockCipher) (cfg : EncConfig) :
    Option Str → Except Err (Option Str)
  | none => .ok none
  | some ct => (decryptPII C cfg ct).map some

/-- `decryptHCPRow`: the raw row turned into a decrypted `HCPRecord` view. -/
def decryptHCPRow (C : BlockCipher) (cfg : EncConfig) (row : HCPRow) :
    Except Err HCPRecord := do
  let fn ← decryptPII C cfg row.first_name_encrypted
  let ln ← decryptPII C cfg row.last_name_encrypted
  let em ← decryptOpt C cfg row.email_encrypted
  let ph ← decryptOpt C cfg row.phone_encrypted
  .ok { id := row.id, externalId := row.external_id, firstName := fn,
        lastName := ln, email := em, phone := ph,
        specialty := row.specialty, subSpecialty := row.sub_specialty,
        influenceLevel := row.influence_level,
        primaryInstitutionId := row.primary_institution_id,
        territoryId := row.territory_id, title := row.title,
        yearsOfPractice := row.years_of_practice,
        languages := row.languages,
        therapeuticAreas := row.therapeutic_areas,
        metadata := row.metadata, isActive := row.is_active,
        createdAt := row.created_at, updatedAt := row.updated_at }

/-- Encrypt an optional PII input with JS truthiness (`input.email ? enc : null`). -/
def encryptTruthy (C : BlockCipher) (cfg : EncConfig) :
    Option Str → Except Err (Option Str)
  | none => .ok none
  | some v => if v.isEmpty then .ok none else (encryptPII C cfg v).map some

namespace HCPService

/-- The `hcps` row inserted by `HCPService.create`, with the already
encrypted PII columns passed in. -/
def createRow (digest : Str → Str) (key : Str) (input : CreateHCPInput)
    (id now : Nat) (fne lne : Str) (eme phe : Option Str) : HCPRow :=
  { id := id
    external_id := input.externalId
    first_name_encrypted := fne
    first_name_hash := hashForIndex digest key (toLower input.firstName)
    last_name_encrypted := lne
    last_name_hash := hashForIndex digest key (toLower input.lastName)
    email_encrypted := eme
    email_hash := input.email.bind fun e =>
      if e.isEmpty then none else some (hashForIndex digest key (toLower e))
    phone_encrypted := phe
    phone_hash := input.phone.bind fun p =>
      if p.isEmpty then none else some (hashForIndex digest key p)
    specialty := input.specialty
    sub_specialty := input.subSpecialty
    influence_level := input.influenceLevel
    primary_institution_id := input.primaryInstitutionId
    territory_id := input.territoryId
    title := input.title
    years_of_practice := input.yearsOfPractice
    languages := input.languages.getD []
    therapeutic_areas := input.therapeuticAreas.getD []
    metadata := input.metadata.getD []
    is_active := true
    created_at := now
    updated_at := now
    deleted_at := none }

/-- `HCPService.create`: encrypts and indexes the PII attributes and inserts
the row; `id` models `uuidv4()` and `now` the DB timestamp defaults. -/
def create (C : BlockCipher) (cfg : EncConfig) (digest : Str → Str)
    (input : CreateHCPInput) (id now : Nat) (db : DB) : Except Err DB := do
  let fne ← encryptPII C cfg input.firstName
  let lne ← encryptPII C cfg input.lastName
  let eme ← encryptTruthy C cfg input.email
  let phe ← encryptTruthy C cfg input.phone
  .ok { db with
        hcps := db.hcps ++ [createRow digest cfg.key input id now fne lne eme phe] }

/-- `HCPService.getById`: `where id, deleted_at null`; `NotFound` otherwise;
decrypts the PII columns of the found row. -/
def getById (C : BlockCipher) (cfg : EncConfig) (db : DB) (id : Nat) :
    Except Err HCPRecord :=
  match db.hcps.find? (fun r => r.id == id && r.deleted_at == none) with
  | none => .error .notFound
  | some row => decryptHCPRow C cfg row

/-- The `updates` object built field by field in `HCPService.update`:
`none` in the outer option means the input field was `undefined`. -/
structure HCPUpdates where
  updated_at : Nat
  first_name_encrypted : Option Str := none
  first_name_hash : Option Str := none
  last_name_encrypted : Option Str := none
  last_name_hash : Option Str := none
  email_encrypted : Option (Option Str) := none
  email_hash : Option (Option Str) := none
  phone_encrypted : Option (Option Str) := none
  phone_hash : Option (Option Str) := none
  specialty : Option Str := none
  sub_specialty : Option Str := none
  influence_level : Option Str := none
  primary_institution_id : Option Nat := none
  territory_id : Option Nat := none
  title : Option Str := none
  years_of_practice : Option Nat := none
  languages : Option (List Str) := none
  therapeutic_areas : Option (List Str) := none
  metadata : Option JObj := none
deriving DecidableEq

/-- The `updates` record of `HCPService.update`, with the already encrypted
PII columns passed in. -/
def mkUpdatesRec (digest : Str → Str) (key : Str) (input : UpdateHCPInput)
    (now : Nat) (fne lne : Option Str) (eme phe : Option (Option Str)) :
    HCPUpdates :=
  { updated_at := now
    first_name_encrypted := fne
    first_name_hash := input.firstName.map fun v =>
      hashForIndex digest key (toLower v)
    last_name_encrypted := lne
    last_name_hash := input.lastName.map fun v =>
      hashForIndex digest key (toLower v)
    email_encrypted := eme
    email_hash := input.email.map fun v =>
      if v.isEmpty then none else some (hashForIndex digest key (toLower v))
    phone_encrypted := phe
    phone_hash := input.phone.map fun v =>
      if v.isEmpty then none else some (hashForIndex digest key v)
    specialty := input.specialty
    sub_specialty := input.subSpecialty
    influence_level := input.influenceLevel
    primary_institution_id := input.primaryInstitutionId
    territory_id := input.territoryId
    title := input.title
    years_of_practice := input.yearsOfPractice
    languages := input.languages
    therapeutic_areas := input.therapeuticAreas
    metadata := input.metadata }

/-- Builds the `updates` record of `HCPService.update` from the input. -/
def mkUpdates (C : BlockCipher) (cfg : EncConfig) (digest : Str → Str)
    (input : UpdateHCPInput) (now : Nat) : Except Err HCPUpdates := do
  let fne ← match input.firstName with
    | some v => (encryptPII C cfg v).map some
    | none => pure none
  let lne ← match input.lastName with
    | some v => (encryptPII C cfg v).map some
    | none => pure none
  let eme ← match input.email with
    | some v => (encryptTruthy C cfg (some v)).map some
    | none => pure none
  let phe ← match input.phone with
    | some v => (encryptTruthy C cfg (some v)).map some
    | none => pure none
  .ok (mkUpdatesRec digest cfg.key input now fne lne eme phe)

/-- Applies the `updates` object to one row (`where id .update(updates)`). -/
def applyUpdates (u : HCPUpdates) (r : HCPRow) : HCPRow :=
  { r with
    updated_at := u.updated_at
    first_name_encrypted := u.first_name_encrypted.getD r.first_name_encrypted
    first_name_hash := u.first_name_hash.getD r.first_name_hash
    last_name_encrypted := u.last_name_encrypted.getD r.last_name_encrypted
    last_name_hash := u.last_name_hash.getD r.last_name_hash
    email_encrypted := u.email_encrypted.getD r.email_encrypted
    email_hash := u.email_hash.getD r.email_hash
    phone_encrypted := u.phone_encrypted.getD r.phone_encrypted
    phone_hash := u.phone_hash.getD r.phone_hash
    specialty := u.specialty.getD r.specialty
    sub_specialty := (u.sub_specialty.map some).getD r.sub_specialty
    influence_level := u.influence_level.getD r.influence_level
    primary_institution_id :=
      (u.primary_institution_id.map some).getD r.primary_institution_id
    territory_id := (u.territory_id.map some).getD r.territory_id
    title := (u.title.map some).getD r.title
    years_of_practice :=
      (u.years_of_practice.map some).getD r.years_of_practice
    languages := u.languages.getD r.languages
    therapeutic_areas := u.therapeutic_areas.getD r.therapeutic_areas
    metadata := u.metadata.getD r.metadata }

/-- `HCPService.update`: `NotFound` when the id is absent or soft-deleted,
otherwise builds `updates` from the supplied fields and applies them. -/
def update (C : BlockCipher) (cfg : EncConfig) (digest : Str → Str)
    (id : Nat) (input : UpdateHCPInput) (now : Nat) (db : DB) :
    Except Err DB :=
  match db.hcps.find? (fun r => r.id == id && r.deleted_at == none) with
  | none => .error .notFound
  | some _ => do
    let u ← mkUpdates C cfg digest input now
    .ok { db with
          hcps := db.hcps.map fun r => if r.id == id then applyUpdates u r else r }

/-- `HCPService.softDelete`: sets the deletion timestamp, reversible. -/
def softDelete (id now : Nat) (db : DB) : Except Err DB :=
  match db.hcps.find? (fun r => r.id == id && r.deleted_at == none) with
  | none => .error .notFound
  | some _ =>
    .ok { db with
          hcps := db.hcps.map fun r =>
            if r.id == id then { r with deleted_at := some now, is_active := false }
            else r }

/-- The fixed sentinel written by GDPR anonymization. -/
def sentinel : Str := str "[ANONYMIZED]"

/-- The column assignments of the anonymization update, with the already
encrypted sentinel `ae` passed in. -/
def anonRow (digest : Str → Str) (key : Str) (now : Nat) (ae : Str)
    (r : HCPRow) : HCPRow :=
  { r with
    first_name_encrypted := ae
    first_name_hash := hashForIndex digest key sentinel
    last_name_encrypted := ae
    last_name_hash := hashForIndex digest key sentinel
    email_encrypted := none
    email_hash := none
    phone_encrypted := none
    phone_hash := none
    external_id := none
    is_active := false
    deleted_at := some now
    metadata := [(str "anonymized", .jbool true),
                 (str "anonymized_at", .jnum now)] }

/-- `HCPService.anonymize`: looks the row up by id alone, replaces the name
columns with the sentinel's encryption and index hash, nulls the email and
phone columns, clears the external id, deactivates the row, stamps
`deleted_at` and writes the anonymization marker into `metadata`. -/
def anonymize (C : BlockCipher) (cfg : EncConfig) (digest : Str → Str)
    (id now : Nat) (db : DB) : Except Err DB :=
  match db.hcps.find? (fun r => r.id == id) with
  | none => .error .notFound
  | some _ => do
    let ae ← encryptPII C cfg sentinel
    .ok { db with
          hcps := db.hcps.map fun r =>
            if r.id == id then anonRow digest cfg.key now ae r else r }

/-- `HCPService.recordConsent`: inserts one immutable consent row; `cid`
models `uuidv4()` and `now` the DB `created_at` default. -/
def recordConsent (input : CreateConsentInput) (recordedBy cid now : Nat)
    (db : DB) : DB :=
  { db with
    consents := db.consents ++
      [{ id := cid
         hcp_id := input.hcpId
         consent_type := input.consentType
         status := input.status
         granted_at := if input.status == .granted then some now else none
         revoked_at := if input.status == .revoked then some now else none
         expires_at := input.expiresAt
         source := input.source
         evidence_url := input.evidenceUrl
         recorded_by := recordedBy
         notes := input.notes
         created_at := now }] }

end HCPService

-- ─── Audit Trail (createAuditEntry, middleware/audit.ts) ───────────────

/-- The parameter object of `createAuditEntry`. -/
structure AuditParams where
  userId : Nat
  action : AuditAction
  entityType : Str
  entityId : Option Nat := none
  previousState : Option JObj := none
  newState : Option JObj := none
  ipAddress : Str
  userAgent : Str
  metadata : Option JObj := none
deriving DecidableEq

/-- The `audit_log` row inserted by `createAuditEntry`. -/
def mkAuditEntry (p : AuditParams) (aid now : Nat) : AuditEntry :=
  { id := aid
    user_id := some p.userId
    action := p.action
    entity_type := p.entityType
    entity_id := p.entityId
    previous_state := p.previousState
    new_state := p.newState
    ip_address := p.ipAddress
    user_agent := p.userAgent
    metadata := p.metadata.getD []
    created_at := now }

/-- `createAuditEntry`: one insert into `audit_log`; a persistence failure
(modelled by `auditOk = false`) is logged and re-thrown, never swallowed. -/
def createAuditEntry (p : AuditParams) (aid now : Nat) (auditOk : Bool)
    (db : DB) : Except Err DB :=
  if auditOk then
    .ok { db with audit_log := db.audit_log ++ [mkAuditEntry p aid now] }
  else .error .auditWriteFailed

-- ─── Route handlers (hcp.routes.ts) ────────────────────────────────────

/-- Request provenance from `getRequestMeta`. -/
structure ReqMeta where
  ip : Str
  agent : Str
deriving DecidableEq

/-- The `PATCH /:id` handler: read the previous record, run the service
update (which itself re-reads the updated record), then append the audit
entry.  Each awaited statement commits before the next runs; a thrown
error is passed to `next(error)` with all earlier effects kept. -/
def routeUpdateHCP (C : BlockCipher) (cfg : EncConfig) (digest : Str → Str)
    (db : DB) (id : Nat) (input : UpdateHCPInput) (userId now aid : Nat)
    (meta : ReqMeta) (auditOk : Bool) : DB × Except Err HCPRecord :=
  match HCPService.getById C cfg db id with
  | .error e => (db, .error e)
  | .ok previousHcp =>
    match HCPService.update C cfg digest id input now db with
    | .error e => (db, .error e)
    | .ok db1 =>
      match HCPService.getById C cfg db1 id with
      | .error e => (db1, .error e)
      | .ok updatedHcp =>
        match createAuditEntry
            { userId := userId
              action := .update
              entityType := str "hcp"
              entityId := some id
              previousState := some
                [(str "specialty", .jstr previousHcp.specialty),
                 (str "influenceLevel", .jstr previousHcp.influenceLevel)]
              newState := some
                [(str "specialty", .jstr updatedHcp.specialty),
                 (str "influenceLevel", .jstr updatedHcp.influenceLevel)]
              ipAddress := meta.ip
              userAgent := meta.agent } aid now auditOk db1 with
        | .error e => (db1, .error e)
        | .ok db2 => (db2, .ok updatedHcp)

/-- The `POST /:id/anonymize` handler: service anonymize, then the `delete`
audit entry tagged `type: gdpr_anonymization`. -/
def routeAnonymizeHCP (C : BlockCipher) (cfg : EncConfig) (digest : Str → Str)
    (db : DB) (id userId now aid : Nat) (meta : ReqMeta) (auditOk : Bool) :
    DB × Except Err Unit :=
  match HCPService.anonymize C cfg digest id now db with
  | .error e => (db, .error e)
  | .ok db1 =>
    match createAuditEntry
        { userId := userId
          action := .delete
          entityType := str "hcp"
          entityId := some id
          ipAddress := meta.ip
          userAgent := meta.agent
          metadata := some [(str "type", .jstr (str "gdpr_anonymization"))] }
        aid now auditOk db1 with
    | .error e => (db1, .error e)
    | .ok db2 => (db2, .ok ())

-- ─── Consent gate (middleware/consent-check.ts) ────────────────────────

/-- Outcome of the `requireConsent` middleware: pass the request on, or
reject it with `ConsentRequiredError`. -/
inductive ConsentCheck where
  | proceed
  | consentRequired
deriving DecidableEq

/-- `orderBy created_at desc` followed by `.first()`: the record with the
greatest `created_at` (the first one found wins a tie). -/
def pickLatest : Option ConsentRow → List ConsentRow → Option ConsentRow
  | acc, [] => acc
  | none, c :: cs => pickLatest (some c) cs
  | some b, c :: cs =>
    pickLatest (some (if b.created_at < c.created_at then c else b)) cs

/-- The consent rows for one (subject, channel) pair. -/
def consentsFor (consents : List ConsentRow) (hcpId : Nat)
    (ct : ConsentType) : List ConsentRow :=
  consents.filter fun c => c.hcp_id == hcpId && c.consent_type == ct

/-- The most recent consent record for one (subject, channel) pair. -/
def latestConsent (consents : List ConsentRow) (hcpId : Nat)
    (ct : ConsentType) : Option ConsentRow :=
  pickLatest none (consentsFor consents hcpId ct)

/-- `requireConsent(consentType)`: `req.params.hcpId || req.body?.hcpId`;
without a subject id the middleware calls `next()` untouched; otherwise the
latest record must exist, be `granted`, and not be past its expiry. -/
def requireConsent (db : DB) (ct : ConsentType)
    (paramsHcpId bodyHcpId : Option Nat) (now : Nat) : ConsentCheck :=
  match paramsHcpId <|> bodyHcpId with
  | none => .proceed
  | some hid =>
    match latestConsent db.consents hid ct with
    | none => .consentRequired
    | some consent =>
      if consent.status != .granted then .consentRequired
      else
        match consent.expires_at with
        | some e => if e < now then .consentRequired else .proceed
        | none => .proceed

-- ─── ComplianceService.verifyDataIntegrity (compliance service) ────────

/-- Insert an audit entry into a list ascending by `created_at`. -/
def insertAsc (e : AuditEntry) : List AuditEntry → List AuditEntry
  | [] => [e]
  | x :: xs =>
    if e.created_at ≤ x.created_at then e :: x :: xs else x :: insertAsc e xs

/-- Sort audit entries ascending by `created_at` (the `orderBy asc` load). -/
def sortAsc (l : List AuditEntry) : List AuditEntry := l.foldr insertAsc []

/-- All audit entries for one (entity type, entity id) pair in ascending
creation-time order, as loaded by `verifyDataIntegrity`. -/
def auditEntriesFor (log : List AuditEntry) (entityType : Str)
    (entityId : Nat) : List AuditEntry :=
  sortAsc (log.filter fun e =>
    e.entity_type == entityType && e.entity_id == some entityId)

/-- The `findIndex` / `slice` / `filter` check of `verifyDataIntegrity`:
is there an `update` entry after the first `delete` entry? -/
def hasUpdateAfterFirstDelete (entries : List AuditEntry) : Bool :=
  match entries.findIdx? (fun e => e.action == .delete) with
  | some i => ((entries.drop (i + 1)).filter
      (fun e => e.action == .update)).length > 0
  | none => false

/-- Issue text for a missing create entry. -/
def missingCreateMsg : Str := str "Missing CREATE audit entry for entity"

/-- Issue text for updates after a delete. -/
def updatesAfterDeleteMsg : Str := str "Updates found after DELETE action"

/-- `ComplianceService.verifyDataIntegrity`: loads the entries in ascending
time order and runs the two audit-trail consistency checks. -/
def verifyDataIntegrity (log : List AuditEntry) (entityType : Str)
    (entityId : Nat) : Bool × List Str :=
  let entries := auditEntriesFor log entityType entityId
  let hasCreate := entries.any fun e => e.action == .create
  let issues1 :=
    if entries.length > 0 && !hasCreate then [missingCreateMsg] else []
  let issues2 :=
    if hasUpdateAfterFirstDelete entries then [updatesAfterDeleteMsg] else []
  let issues := issues1 ++ issues2
  (issues.isEmpty, issues)

-- ─── Trust-layer operations as one step relation ───────────────────────

/-- One mutating operation of the trust layer, with the identifiers and
timestamps the environment supplies. -/
inductive TrustOp where
  | create (input : CreateHCPInput) (id now : Nat)
  | update (id : Nat) (input : UpdateHCPInput) (now : Nat)
  | softDelete (id now : Nat)
  | anonymize (id now : Nat)
  | recordConsent (input : CreateConsentInput) (recordedBy cid now : Nat)
  | audit (p : AuditParams) (aid now : Nat) (auditOk : Bool)

/-- Run one trust-layer operation; a thrown error leaves the state as the
operation left it (these operations mutate nothing before failing). -/
def applyOp (C : BlockCipher) (cfg : EncConfig) (digest : Str → Str)
    (op : TrustOp) (db : DB) : DB :=
  match op with
  | .create input id now =>
    match HCPService.create C cfg digest input id now db with
    | .ok db2 => db2
    | .error _ => db
  | .update id input now =>
    match HCPService.update C cfg digest id input now db with
    | .ok db2 => db2
    | .error _ => db
  | .softDelete id now =>
    match HCPService.softDelete id now db with
    | .ok db2 => db2
    | .error _ => db
  | .anonymize id now =>
    match HCPService.anonymize C cfg digest id now db with
    | .ok db2 => db2
    | .error _ => db
  | .recordConsent input recordedBy cid now =>
    HCPService.recordConsent input recordedBy cid now db
  | .audit p aid now auditOk =>
    match createAuditEntry p aid now auditOk db with
    | .ok db2 => db2
    | .error _ => db

/-- Run a sequence of trust-layer operations. -/
def applyOps (C : BlockCipher) (cfg : EncConfig) (digest : Str → Str)
    (ops : List TrustOp) (db : DB) : DB :=
  ops.foldl (fun s op => applyOp C cfg digest op s) db

-- ─── Concrete fixtures for witnesses and counterexamples ───────────────

/-- A concrete block cipher instance: the identity permutation. -/
def C0 : BlockCipher := ⟨fun b => b, fun b => b⟩

/-- A concrete configured key and 16-byte IV. -/
def cfg0 : EncConfig := ⟨str "k", List.replicate 16 0⟩

/-- A concrete digest instance: the identity function. -/
def digest0 : Str → Str := fun v => v

/-- Concrete request provenance. -/
def meta0 : ReqMeta := ⟨str "ip", str "ua"⟩

/-- A concrete stored subject row with all PII columns populated. -/
def row0 : HCPRow :=
  { id := 1
    external_id := some (str "NPI-1")
    first_name_encrypted := encPipeline C0 cfg0 (str "Ann")
    first_name_hash := hashForIndex digest0 cfg0.key (toLower (str "Ann"))
    last_name_encrypted := encPipeline C0 cfg0 (str "Lee")
    last_name_hash := hashForIndex digest0 cfg0.key (toLower (str "Lee"))
    email_encrypted := some (encPipeline C0 cfg0 (str "a@x.com"))
    email_hash := some (hashForIndex digest0 cfg0.key (toLower (str "a@x.com")))
    phone_encrypted := some (encPipeline C0 cfg0 (str "555"))
    phone_hash := some (hashForIndex digest0 cfg0.key (str "555"))
    specialty := str "cardiology"
    sub_specialty := none
    influence_level := str "high"
    primary_institution_id := none
    territory_id := none
    title := none
    years_of_practice := none
    languages := []
    therapeutic_areas := []
    metadata := []
    is_active := true
    created_at := 0
    updated_at := 0
    deleted_at := none }

/-- A database holding just the subject `row0`. -/
def db0 : DB := ⟨[row0], [], []⟩

/-- The same database with the subject already soft-deleted at time 3. -/
def db0d : DB := ⟨[{ row0 with deleted_at := some 3 }], [], []⟩

/-- A throwaway record used as a default when unwrapping `Except`. -/
def fallbackRecord : HCPRecord :=
  ⟨0, none, [], [], none, none, [], none, [], none, none, none, none,
   [], [], [], false, 0, 0⟩

/-- Unwrap an `Except` value with a default. -/
def exceptGetD {α : Type} (x : Except Err α) (d : α) : α :=
  match x with
  | .ok v => v
  | .error _ => d

/-- An update input supplying only the specialty. -/
def updSpecialty : UpdateHCPInput := { specialty := some (str "oncology") }

/-- An update input supplying nothing at all. -/
def emptyUpdate : UpdateHCPInput := {}

/-- The decrypted view of `row0`. -/
def prev0 : HCPRecord :=
  exceptGetD (HCPService.getById C0 cfg0 db0 1) fallbackRecord

/-- `db0` after the specialty-only service update at time 5. -/
def db1c : DB :=
  exceptGetD (HCPService.update C0 cfg0 digest0 1 updSpecialty 5 db0) db0

/-- The decrypted view of the updated row. -/
def upd0 : HCPRecord :=
  exceptGetD (HCPService.getById C0 cfg0 db1c 1) fallbackRecord

/-- `db0` after the empty service update at time 5. -/
def db9c : DB :=
  exceptGetD (HCPService.update C0 cfg0 digest0 1 emptyUpdate 5 db0) db0

/-- A concrete create input whose phone contains an upper-case letter. -/
def createInput0 : CreateHCPInput :=
  { externalId := none
    firstName := str "Ann"
    lastName := str "Lee"
    email := some (str "A@x.com")
    phone := some (str "800A")
    specialty := str "cardiology"
    subSpecialty := none
    influenceLevel := str "high"
    primaryInstitutionId := none
    territoryId := none
    title := none
    yearsOfPractice := none
    languages := none
    therapeuticAreas := none
    metadata := none }

/-- The empty database after creating `createInput0`. -/
def db8 : DB :=
  exceptGetD (HCPService.create C0 cfg0 digest0 createInput0 2 5 ⟨[], [], []⟩)
    ⟨[], [], []⟩

/-- A granted email consent recorded at time 5. -/
def consentG : ConsentRow :=
  ⟨10, 1, .email, .granted, some 5, none, none, none, none, 9, none, 5⟩

/-- A revoked email consent recorded at time 3. -/
def consentR : ConsentRow :=
  ⟨11, 1, .email, .revoked, none, some 3, none, none, none, 9, none, 3⟩

/-- A database whose consent ledger holds the two records above. -/
def dbConsent : DB := ⟨[], [consentR, consentG], []⟩

/-- The evaluated `updates` record for the specialty-only update fixture. -/
def u0 : HCPService.HCPUpdates :=
  exceptGetD (HCPService.mkUpdates C0 cfg0 digest0 updSpecialty 5)
    { updated_at := 0 }

/-- The anonymization route applied to `db0`. -/
def anonResult : DB × Except Err Unit :=
  routeAnonymizeHCP C0 cfg0 digest0 db0 1 9 5 77 meta0 true

/-- The anonymization route applied to the soft-deleted variant `db0d`. -/
def anonResultDeleted : DB × Except Err Unit :=
  routeAnonymizeHCP C0 cfg0 digest0 db0d 1 9 5 77 meta0 true

-- ─── Lemmas: CBC / PKCS7 round trip ────────────────────────────────────

theorem xorBytes_length (a b : Str) :
    (xorBytes a b).length = min a.length b.length := by
  simp [xorBytes]

theorem xorBytes_cancel (a b : Str) (h : a.length = b.length) :
    xorBytes (xorBytes a b) b = a := by
  induction a generalizing b with
  | nil => simp [xorBytes]
  | cons x xs ih =>
    cases b with
    | nil => simp at h
    | cons y ys =>
      simp only [xorBytes, List.zipWith_cons_cons] at *
      simp only [List.cons.injEq]
      exact ⟨Nat.xor_cancel_right y x, ih ys (by simp at h; omega)⟩

theorem toBlocksAux_congr : ∀ (f1 f2 : Nat) (bs : Str),
    bs.length ≤ f1 → bs.length ≤ f2 → toBlocksAux f1 bs = toBlocksAux f2 bs := by
  intro f1
  induction f1 with
  | zero =>
    intro f2 bs h1 _
    have hbs : bs = [] := List.length_eq_zero.mp (Nat.le_zero.mp h1)
    subst hbs
    cases f2 <;> rfl
  | succ k ih =>
    intro f2 bs h1 h2
    cases bs with
    | nil => cases f2 <;> rfl
    | cons b t =>
      cases f2 with
      | zero => simp at h2
      | succ k2 =>
        simp only [toBlocksAux]
        congr 1
        simp only [List.length_cons] at h1 h2
        exact ih k2 _
          (by simp only [List.length_drop, List.length_cons]; omega)
          (by simp only [List.length_drop, List.length_cons]; omega)

theorem toBlocks_unfold (bs : Str) :
    toBlocks bs = if bs.isEmpty then [] else bs.take 16 :: toBlocks (bs.drop 16) := by
  cases bs with
  | nil => rfl
  | cons b t =>
    have hne : ((b :: t).isEmpty = true) = False := by simp
    rw [if_neg (by simp)]
    show toBlocksAux (b :: t).length (b :: t)
      = (b :: t).take 16 :: toBlocks ((b :: t).drop 16)
    simp only [List.length_cons, toBlocksAux]
    congr 1
    exact toBlocksAux_congr t.length ((b :: t).drop 16).length _
      (by simp only [List.length_drop, List.length_cons]; omega)
      (le_refl _)

theorem toBlocks_flatten (bs : Str) : (toBlocks bs).flatten = bs := by
  have H : ∀ (n : Nat) (l : Str), l.length ≤ n → (toBlocks l).flatten = l := by
    intro n
    induction n with
    | zero =>
      intro l hl
      have : l = [] := List.length_eq_zero.mp (Nat.le_zero.mp hl)
      subst this
      rw [toBlocks_unfold]
      simp
    | succ k ih =>
      intro l hl
      rw [toBlocks_unfold]
      by_cases hbs : l.isEmpty
      · simp [List.isEmpty_iff.mp hbs]
      · have hpos : 0 < l.length := by
          cases l with
          | nil => simp at hbs
          | cons a t => simp
        rw [if_neg (by simp [hbs]), List.flatten_cons,
            ih (l.drop 16) (by simp only [List.length_drop]; omega)]
        exact List.take_append_drop 16 l
  exact H bs.length bs (le_refl _)

theorem toBlocks_len16 (bs : Str) (hdvd : 16 ∣ bs.length) :
    ∀ b ∈ toBlocks bs, b.length = 16 := by
  have H : ∀ (n : Nat) (l : Str), l.length ≤ n → 16 ∣ l.length →
      ∀ b ∈ toBlocks l, b.length = 16 := by
    intro n
    induction n with
    | zero =>
      intro l hl _
      have : l = [] := List.length_eq_zero.mp (Nat.le_zero.mp hl)
      subst this
      rw [toBlocks_unfold]
      simp
    | succ k ih =>
      intro l hl hd
      rw [toBlocks_unfold]
      by_cases hbs : l.isEmpty
      · simp [hbs]
      · have hpos : 0 < l.length := by
          cases l with
          | nil => simp at hbs
          | cons a t => simp
        have h16 : 16 ≤ l.length := Nat.le_of_dvd hpos hd
        rw [if_neg (by simp [hbs])]
        intro b hb
        rcases List.mem_cons.mp hb with hb | hb
        · subst hb; simp [List.length_take]; omega
        · exact ih (l.drop 16) (by simp only [List.length_drop]; omega)
            (by simp only [List.length_drop]
                exact Nat.dvd_sub' hd (by norm_num)) b hb
  exact H bs.length bs (le_refl _) hdvd

theorem toBlocks_flatten_blocks (L : List Str) (h : ∀ b ∈ L, b.length = 16) :
    toBlocks L.flatten = L := by
  induction L with
  | nil => rw [List.flatten_nil, toBlocks_unfold]; simp
  | cons b rest ih =>
    have hb : b.length = 16 := h b (List.mem_cons_self b rest)
    have hbne : (b ++ rest.flatten).isEmpty = false := by
      cases b with
      | nil => simp at hb
      | cons a t => simp
    rw [List.flatten_cons, toBlocks_unfold, if_neg (by simp [hbne]),
        List.take_left' hb, List.drop_left' hb,
        ih fun x hx => h x (List.mem_cons_of_mem b hx)]

theorem cbcEncryptBlocks_len16 (E : Str → Str)
    (hElen : ∀ b, b.length = 16 → (E b).length = 16) :
    ∀ (ps : List Str) (prev : Str), prev.length = 16 →
      (∀ p ∈ ps, p.length = 16) →
      ∀ c ∈ cbcEncryptBlocks E prev ps, c.length = 16 := by
  intro ps
  induction ps with
  | nil => intro prev _ _ c hc; simp [cbcEncryptBlocks] at hc
  | cons p ps ih =>
    intro prev hprev hps c hc
    have hp : p.length = 16 := hps p (List.mem_cons_self p ps)
    have hx : (xorBytes p prev).length = 16 := by
      rw [xorBytes_length, hp, hprev]; simp
    have hE : (E (xorBytes p prev)).length = 16 := hElen _ hx
    simp only [cbcEncryptBlocks, List.mem_cons] at hc
    rcases hc with hc | hc
    · subst hc; exact hE
    · exact ih _ hE (fun q hq => hps q (List.mem_cons_of_mem p hq)) c hc

theorem cbc_roundtrip (E D : Str → Str)
    (hDE : ∀ b, b.length = 16 → D (E b) = b)
    (hElen : ∀ b, b.length = 16 → (E b).length = 16) :
    ∀ (ps : List Str) (prev : Str), prev.length = 16 →
      (∀ p ∈ ps, p.length = 16) →
      cbcDecryptBlocks D prev (cbcEncryptBlocks E prev ps) = ps := by
  intro ps
  induction ps with
  | nil => intro prev _ _; simp [cbcEncryptBlocks, cbcDecryptBlocks]
  | cons p ps ih =>
    intro prev hprev hps
    have hp : p.length = 16 := hps p (List.mem_cons_self p ps)
    have hx : (xorBytes p prev).length = 16 := by
      rw [xorBytes_length, hp, hprev]; simp
    simp only [cbcEncryptBlocks, cbcDecryptBlocks]
    rw [hDE _ hx, xorBytes_cancel p prev (by rw [hp, hprev])]
    rw [ih _ (hElen _ hx) fun q hq => hps q (List.mem_cons_of_mem p hq)]

theorem pkcs7Pad_length_dvd (bs : Str) : 16 ∣ (pkcs7Pad bs).length := by
  simp only [pkcs7Pad, List.length_append, List.length_replicate]
  omega

theorem pkcs7Unpad_pad (bs : Str) : pkcs7Unpad (pkcs7Pad bs) = bs := by
  have hr : bs.length % 16 < 16 := Nat.mod_lt _ (by norm_num)
  have hn : 0 < 16 - bs.length % 16 := by omega
  have hlast : (pkcs7Pad bs).getLast? = some (16 - bs.length % 16) := by
    rw [pkcs7Pad, List.getLast?_append_of_ne_nil _
      (by intro hcon
          have := congrArg List.length hcon
          simp only [List.length_replicate, List.length_nil] at this
          omega)]
    cases hn16 : (16 - bs.length % 16) with
    | zero => omega
    | succ k =>
      rw [List.replicate_succ']
      exact List.getLast?_concat _
  have hlen : (pkcs7Pad bs).length = bs.length + (16 - bs.length % 16) := by
    simp [pkcs7Pad]
  rw [pkcs7Unpad, hlast, Option.getD_some, hlen, Nat.add_sub_cancel, pkcs7Pad]
  exact List.take_left bs _

-- ─── Lemmas: which tables each operation touches ───────────────────────

theorem create_ok_tables (C : BlockCipher) (cfg : EncConfig)
    (digest : Str → Str) (input : CreateHCPInput) (id now : Nat)
    (db db2 : DB) (h : HCPService.create C cfg digest input id now db = .ok db2) :
    db2.consents = db.consents ∧ db2.audit_log = db.audit_log := by
  revert h
  unfold HCPService.create
  simp only [bind, Except.bind]
  cases encryptPII C cfg input.firstName
  · intro h; cases h
  cases encryptPII C cfg input.lastName
  · intro h; cases h
  cases encryptTruthy C cfg input.email
  · intro h; cases h
  cases encryptTruthy C cfg input.phone
  · intro h; cases h
  intro h
  cases h
  exact ⟨rfl, rfl⟩

theorem update_ok_tables (C : BlockCipher) (cfg : EncConfig)
    (digest : Str → Str) (id : Nat) (input : UpdateHCPInput) (now : Nat)
    (db db2 : DB) (h : HCPService.update C cfg digest id input now db = .ok db2) :
    db2.consents = db.consents ∧ db2.audit_log = db.audit_log := by
  revert h
  unfold HCPService.update
  cases db.hcps.find? (fun r => r.id == id && r.deleted_at == none)
  · intro h; cases h
  simp only [bind, Except.bind]
  cases HCPService.mkUpdates C cfg digest input now
  · intro h; cases h
  intro h
  cases h
  exact ⟨rfl, rfl⟩

theorem softDelete_ok_tables (id now : Nat) (db db2 : DB)
    (h : HCPService.softDelete id now db = .ok db2) :
    db2.consents = db.consents ∧ db2.audit_log = db.audit_log := by
  revert h
  unfold HCPService.softDelete
  cases db.hcps.find? (fun r => r.id == id && r.deleted_at == none)
  · intro h; cases h
  intro h
  cases h
  exact ⟨rfl, rfl⟩

theorem anonymize_ok_tables (C : BlockCipher) (cfg : EncConfig)
    (digest : Str → Str) (id now : Nat) (db db2 : DB)
    (h : HCPService.anonymize C cfg digest id now db = .ok db2) :
    db2.consents = db.consents ∧ db2.audit_log = db.audit_log := by
  revert h
  unfold HCPService.anonymize
  cases db.hcps.find? (fun r => r.id == id)
  · intro h; cases h
  simp only [bind, Except.bind]
  cases encryptPII C cfg HCPService.sentinel
  · intro h; cases h
  intro h
  cases h
  exact ⟨rfl, rfl⟩

theorem recordConsent_tables (input : CreateConsentInput)
    (recordedBy cid now : Nat) (db : DB) :
    (HCPService.recordConsent input recordedBy cid now db).audit_log
        = db.audit_log ∧
    (HCPService.recordConsent input recordedBy cid now db).hcps = db.hcps := by
  exact ⟨rfl, rfl⟩

theorem createAuditEntry_ok_tables (p : AuditParams) (aid now : Nat)
    (auditOk : Bool) (db db2 : DB)
    (h : createAuditEntry p aid now auditOk db = .ok db2) :
    db2.consents = db.consents ∧ db2.hcps = db.hcps ∧
    db2.audit_log = db.audit_log ++ [mkAuditEntry p aid now] := by
  simp only [createAuditEntry] at h
  split at h
  · cases h; exact ⟨rfl, rfl, rfl⟩
  · cases h

/-- One trust-layer step only ever appends to the `audit_log` and
`consents` tables, whatever the operation and its outcome. -/
theorem applyOp_append_only (C : BlockCipher) (cfg : EncConfig)
    (digest : Str → Str) (op : TrustOp) (db : DB) :
    (∃ t, (applyOp C cfg digest op db).audit_log = db.audit_log ++ t) ∧
    (∃ t, (applyOp C cfg digest op db).consents = db.consents ++ t) := by
  cases op with
  | create input id now =>
    simp only [applyOp]
    cases h : HCPService.create C cfg digest input id now db with
    | ok db2 =>
      obtain ⟨h1, h2⟩ := create_ok_tables C cfg digest input id now db db2 h
      exact ⟨⟨[], by simp [h2]⟩, ⟨[], by simp [h1]⟩⟩
    | error e => exact ⟨⟨[], by simp⟩, ⟨[], by simp⟩⟩
  | update id input now =>
    simp only [applyOp]
    cases h : HCPService.update C cfg digest id input now db with
    | ok db2 =>
      obtain ⟨h1, h2⟩ := update_ok_tables C cfg digest id input now db db2 h
      exact ⟨⟨[], by simp [h2]⟩, ⟨[], by simp [h1]⟩⟩
    | error e => exact ⟨⟨[], by simp⟩, ⟨[], by simp⟩⟩
  | softDelete id now =>
    simp only [applyOp]
    cases h : HCPService.softDelete id now db with
    | ok db2 =>
      obtain ⟨h1, h2⟩ := softDelete_ok_tables id now db db2 h
      exact ⟨⟨[], by simp [h2]⟩, ⟨[], by simp [h1]⟩⟩
    | error e => exact ⟨⟨[], by simp⟩, ⟨[], by simp⟩⟩
  | anonymize id now =>
    simp only [applyOp]
    cases h : HCPService.anonymize C cfg digest id now db with
    | ok db2 =>
      obtain ⟨h1, h2⟩ := anonymize_ok_tables C cfg digest id now db db2 h
      exact ⟨⟨[], by simp [h2]⟩, ⟨[], by simp [h1]⟩⟩
    | error e => exact ⟨⟨[], by simp⟩, ⟨[], by simp⟩⟩
  | recordConsent input recordedBy cid now =>
    simp only [applyOp, HCPService.recordConsent]
    exact ⟨⟨[], by simp⟩, ⟨_, rfl⟩⟩
  | audit p aid now auditOk =>
    simp only [applyOp]
    cases h : createAuditEntry p aid now auditOk db with
    | ok db2 =>
      obtain ⟨h1, _, h3⟩ := createAuditEntry_ok_tables p aid now auditOk db db2 h
      exact ⟨⟨[mkAuditEntry p aid now], by simp [h3]⟩, ⟨[], by simp [h1]⟩⟩
    | error e => exact ⟨⟨[], by simp⟩, ⟨[], by simp⟩⟩

/-- The full field-vault round trip: under a configured key, a 16-byte IV
and an AES core whose decryption inverts its encryption on 16-byte blocks,
`decryptPII` recovers exactly what `encryptPII` encrypted. -/
theorem decrypt_encPipeline (C : BlockCipher) (cfg : EncConfig) (x : Str)
    (hkey : ¬ cfg.key.isEmpty) (hiv : cfg.iv.length = 16)
    (hDE : ∀ b, b.length = 16 → C.dec (C.enc b) = b)
    (hElen : ∀ b, b.length = 16 → (C.enc b).length = 16) :
    decryptPII C cfg (encPipeline C cfg x) = .ok x := by
  have hblocks : ∀ b ∈ toBlocks (pkcs7Pad x), b.length = 16 :=
    toBlocks_len16 _ (pkcs7Pad_length_dvd x)
  have hcblocks : ∀ c ∈ cbcEncryptBlocks C.enc cfg.iv (toBlocks (pkcs7Pad x)),
      c.length = 16 :=
    cbcEncryptBlocks_len16 C.enc hElen _ cfg.iv hiv hblocks
  simp only [decryptPII, hkey, if_false, encPipeline]
  rw [toBlocks_flatten_blocks _ hcblocks,
      cbc_roundtrip C.enc C.dec hDE hElen _ cfg.iv hiv hblocks,
      toBlocks_flatten, pkcs7Unpad_pad]
  simp

-- ─── Lemmas: the integrity checks of verifyDataIntegrity ───────────────

theorem sublist_pair_cons {d u e : AuditEntry} {es : List AuditEntry}
    (h : [d, u].Sublist (e :: es)) :
    [d, u].Sublist es ∨ (d = e ∧ [u].Sublist es) := by
  cases h with
  | cons _ h2 => exact .inl h2
  | cons₂ _ h2 => exact .inr ⟨rfl, h2⟩

theorem hasUAFD_cons_delete (e : AuditEntry) (es : List AuditEntry)
    (hdel : e.action = .delete) :
    hasUpdateAfterFirstDelete (e :: es)
      = ((es.filter (fun x => x.action == .update)).length > 0 : Bool) := by
  simp only [hasUpdateAfterFirstDelete, List.findIdx?_cons, hdel]
  simp

theorem hasUAFD_cons_not_delete (e : AuditEntry) (es : List AuditEntry)
    (hdel : ¬ e.action = .delete) :
    hasUpdateAfterFirstDelete (e :: es) = hasUpdateAfterFirstDelete es := by
  simp only [hasUpdateAfterFirstDelete, List.findIdx?_cons,
    beq_iff_eq, if_neg hdel, List.findIdx?_succ]
  cases hfi : es.findIdx? (fun x => x.action == .delete) with
  | none => simp
  | some i => simp [List.drop_succ_cons]

/-- The `findIndex` / `slice` / `filter` check of the code is exactly
"some `update` entry occurs after some `delete` entry". -/
theorem hasUAFD_iff (entries : List AuditEntry) :
    hasUpdateAfterFirstDelete entries = true ↔
      ∃ d u : AuditEntry, d.action = .delete ∧ u.action = .update ∧
        [d, u].Sublist entries := by
  induction entries with
  | nil =>
    simp only [hasUpdateAfterFirstDelete, List.findIdx?_nil]
    constructor
    · intro h; cases h
    · rintro ⟨d, u, _, _, hsub⟩
      have := List.sublist_nil.mp hsub
      cases this
  | cons e es ih =>
    by_cases hdel : e.action = .delete
    · rw [hasUAFD_cons_delete e es hdel]
      constructor
      · intro h
        have hpos : (es.filter (fun x => x.action == .update)).length > 0 := by
          simpa using h
        have : ∃ u ∈ es, u.action = .update := by
          simpa [List.length_pos, List.mem_filter] using hpos
        obtain ⟨u, hu, hupd⟩ := this
        exact ⟨e, u, hdel, hupd,
          List.Sublist.cons₂ e (List.singleton_sublist.mpr hu)⟩
      · rintro ⟨d, u, hd, hu, hsub⟩
        have humem : u ∈ es := by
          rcases sublist_pair_cons hsub with h2 | ⟨_, h2⟩
          · exact h2.subset (by simp)
          · exact List.singleton_sublist.mp h2
        simp only [decide_eq_true_eq]
        simp [List.length_pos, List.mem_filter]
        exact ⟨u, humem, hu⟩
    · rw [hasUAFD_cons_not_delete e es hdel, ih]
      constructor
      · rintro ⟨d, u, hd, hu, hsub⟩
        exact ⟨d, u, hd, hu, hsub.cons e⟩
      · rintro ⟨d, u, hd, hu, hsub⟩
        rcases sublist_pair_cons hsub with h2 | ⟨hde, _⟩
        · exact ⟨d, u, hd, hu, h2⟩
        · rw [hde] at hd; exact absurd hd hdel

-- ─── Lemmas: evaluated forms of the vault-dependent writes ─────────────

theorem encryptTruthy_ok (C : BlockCipher) (cfg : EncConfig)
    (hkey : ¬ cfg.key.isEmpty) (o : Option Str) :
    encryptTruthy C cfg o = .ok (o.bind fun e =>
      if e.isEmpty then none else some (encPipeline C cfg e)) := by
  cases o with
  | none => rfl
  | some v =>
    by_cases hv : v.isEmpty
    · have hveq : v = [] := List.isEmpty_iff.mp hv
      simp [encryptTruthy, hv, hveq]
    · have hne : v ≠ [] := by
        intro hc
        rw [hc] at hv
        exact hv rfl
      simp [encryptTruthy, hv, hne, encryptPII, hkey, Except.map]

theorem create_ok (C : BlockCipher) (cfg : EncConfig) (digest : Str → Str)
    (input : CreateHCPInput) (id now : Nat) (db : DB)
    (hkey : ¬ cfg.key.isEmpty) :
    HCPService.create C cfg digest input id now db
      = .ok { db with hcps := db.hcps ++
          [HCPService.createRow digest cfg.key input id now
            (encPipeline C cfg input.firstName)
            (encPipeline C cfg input.lastName)
            (input.email.bind fun e =>
              if e.isEmpty then none else some (encPipeline C cfg e))
            (input.phone.bind fun p =>
              if p.isEmpty then none else some (encPipeline C cfg p))] } := by
  simp [HCPService.create, encryptPII, hkey, encryptTruthy_ok C cfg hkey,
    bind, Except.bind]

theorem mkUpdates_ok (C : BlockCipher) (cfg : EncConfig) (digest : Str → Str)
    (input : UpdateHCPInput) (now : Nat) (hkey : ¬ cfg.key.isEmpty) :
    HCPService.mkUpdates C cfg digest input now
      = .ok (HCPService.mkUpdatesRec digest cfg.key input now
          (input.firstName.map (encPipeline C cfg))
          (input.lastName.map (encPipeline C cfg))
          (input.email.map fun v =>
            if v.isEmpty then none else some (encPipeline C cfg v))
          (input.phone.map fun v =>
            if v.isEmpty then none else some (encPipeline C cfg v))) := by
  cases hf : input.firstName <;> cases hl : input.lastName <;>
    cases he : input.email <;> cases hp : input.phone <;>
      simp [HCPService.mkUpdates, encryptPII, hkey,
        encryptTruthy_ok C cfg hkey, bind, Except.bind, Except.map, pure,
        Except.pure, hf, hl, he, hp]

-- ─── Lemmas: the latest-consent query ──────────────────────────────────

theorem pickLatest_some (l : List ConsentRow) :
    ∀ (b : ConsentRow), ∃ r, pickLatest (some b) l = some r
      ∧ (r = b ∨ r ∈ l)
      ∧ b.created_at ≤ r.created_at
      ∧ ∀ c ∈ l, c.created_at ≤ r.created_at := by
  induction l with
  | nil =>
    intro b
    exact ⟨b, rfl, .inl rfl, le_refl _, by simp⟩
  | cons c cs ih =>
    intro b
    by_cases hbc : b.created_at < c.created_at
    · obtain ⟨r, hr, hmem, hle, hall⟩ := ih c
      refine ⟨r, ?_, ?_, ?_, ?_⟩
      · show pickLatest (some (if b.created_at < c.created_at then c else b)) cs
          = some r
        rw [if_pos hbc]
        exact hr
      · rcases hmem with h | h
        · exact .inr (by simp [h])
        · exact .inr (List.mem_cons_of_mem c h)
      · exact le_trans (le_of_lt hbc) hle
      · intro x hx
        rcases List.mem_cons.mp hx with h | h
        · subst h; exact hle
        · exact hall x h
    · obtain ⟨r, hr, hmem, hle, hall⟩ := ih b
      refine ⟨r, ?_, ?_, ?_, ?_⟩
      · show pickLatest (some (if b.created_at < c.created_at then c else b)) cs
          = some r
        rw [if_neg hbc]
        exact hr
      · rcases hmem with h | h
        · exact .inl h
        · exact .inr (List.mem_cons_of_mem c h)
      · exact hle
      · intro x hx
        rcases List.mem_cons.mp hx with h | h
        · subst h
          exact le_trans (Nat.le_of_not_lt hbc) hle
        · exact hall x h

theorem latestConsent_none (consents : List ConsentRow) (hid : Nat)
    (ct : ConsentType) :
    latestConsent consents hid ct = none ↔ consentsFor consents hid ct = [] := by
  unfold latestConsent
  cases hf : consentsFor consents hid ct with
  | nil => simp [pickLatest]
  | cons c cs =>
    obtain ⟨r, hr, _, _, _⟩ := pickLatest_some cs c
    show pickLatest (some c) cs = none ↔ _
    rw [hr]
    simp

theorem latestConsent_spec (consents : List ConsentRow) (hid : Nat)
    (ct : ConsentType) (r : ConsentRow)
    (h : latestConsent consents hid ct = some r) :
    r ∈ consentsFor consents hid ct
    ∧ ∀ c ∈ consentsFor consents hid ct, c.created_at ≤ r.created_at := by
  unfold latestConsent at h
  cases hf : consentsFor consents hid ct with
  | nil =>
    rw [hf] at h
    cases h
  | cons c cs =>
    rw [hf] at h
    obtain ⟨r0, hr0, hmem, hle, hall⟩ := pickLatest_some cs c
    have h2 : pickLatest (some c) cs = some r := h
    rw [hr0] at h2
    cases h2
    constructor
    · rcases hmem with hm | hm
      · exact hm ▸ List.mem_cons_self c cs
      · exact List.mem_cons_of_mem c hm
    · intro x hx
      rcases List.mem_cons.mp hx with hm | hm
      · subst hm; exact hle
      · exact hall x hm

-- ─── Claims ────────────────────────────────────────────────────────────

/-- C1 counterexample: a concrete route update whose audit write fails
reports the failure, yet the final subject table keeps the mutation while
the audit log holds no entry for it — contradicting the claim that a
failed audit write leaves the subject unchanged and that no mutation is
observable without its audit entry. -/
theorem claim_C1_counterexample :
    (routeUpdateHCP C0 cfg0 digest0 db0 1 updSpecialty 9 5 77 meta0 false).2
        = .error .auditWriteFailed
    ∧ (routeUpdateHCP C0 cfg0 digest0 db0 1 updSpecialty 9 5 77 meta0 false).1.hcps
        ≠ db0.hcps
    ∧ (routeUpdateHCP C0 cfg0 digest0 db0 1 updSpecialty 9 5 77 meta0 false).1.audit_log
        = db0.audit_log := by decide

/-- C1 (amended): the audit append follows the already committed business
mutation as a separate statement, not in one transaction: when the audit
write fails, the error propagates to the caller and the audit log is
unchanged, but the mutation remains committed — the route leaves exactly
the post-mutation state, so the mutation is observable without its audit
entry. -/
theorem claim_C1_audit_failure_keeps_mutation (C : BlockCipher)
    (cfg : EncConfig) (digest : Str → Str) (db : DB) (id : Nat)
    (input : UpdateHCPInput) (userId now aid : Nat) (meta : ReqMeta)
    (prev upd : HCPRecord) (db1 : DB)
    (h1 : HCPService.getById C cfg db id = .ok prev)
    (h2 : HCPService.update C cfg digest id input now db = .ok db1)
    (h3 : HCPService.getById C cfg db1 id = .ok upd) :
    routeUpdateHCP C cfg digest db id input userId now aid meta false
      = (db1, .error .auditWriteFailed)
    ∧ db1.audit_log = db.audit_log
    ∧ db1.consents = db.consents := by
  obtain ⟨hc, ha⟩ := update_ok_tables C cfg digest id input now db db1 h2
  refine ⟨?_, ha, hc⟩
  simp only [routeUpdateHCP, h1, h2, h3, createAuditEntry, Bool.false_eq_true,
    if_false]

/-- Witness for the amended C1 at the concrete fixture. -/
theorem claim_C1_witness :
    routeUpdateHCP C0 cfg0 digest0 db0 1 updSpecialty 9 5 77 meta0 false
      = (db1c, .error .auditWriteFailed)
    ∧ db1c.audit_log = db0.audit_log
    ∧ db1c.consents = db0.consents :=
  claim_C1_audit_failure_keeps_mutation C0 cfg0 digest0 db0 1 updSpecialty 9 5
    77 meta0 prev0 upd0 db1c (by decide) (by decide) (by decide)

/-- C2 counterexample: on a subject with stored email and phone,
anonymization succeeds but sets the email and phone encrypted values and
index tokens to null instead of the sentinel's encryption/token; and on an
already soft-deleted subject it overwrites the existing deletion timestamp
rather than setting it only if unset. -/
theorem claim_C2_counterexample :
    anonResult.2 = .ok ()
    ∧ row0.email_encrypted.isSome = true
    ∧ row0.phone_encrypted.isSome = true
    ∧ (∀ r ∈ anonResult.1.hcps,
        r.email_encrypted = none ∧ r.email_hash = none
        ∧ r.phone_encrypted = none ∧ r.phone_hash = none)
    ∧ anonResultDeleted.2 = .ok ()
    ∧ (∀ r ∈ anonResultDeleted.1.hcps, r.deleted_at = some 5) := by decide

/-- C2 (amended): for a non-existent id the anonymize route fails with
`notFound` leaving the state unchanged; for an existing id it replaces the
name attributes' encrypted values and index tokens with those of the
sentinel `[ANONYMIZED]`, clears email and phone entirely (encrypted values
and tokens become null), clears the external identifier, sets
`is_active = false`, records `anonymized = true` in the row metadata, sets
the deletion timestamp unconditionally, and appends one `delete` audit
entry tagged `type: gdpr_anonymization` in the same request. -/
theorem claim_C2_anonymize_behaviour (C : BlockCipher) (cfg : EncConfig)
    (digest : Str → Str) (db : DB) (id userId now aid : Nat) (meta : ReqMeta)
    (hkey : ¬ cfg.key.isEmpty) :
    (db.hcps.find? (fun r => r.id == id) = none →
      routeAnonymizeHCP C cfg digest db id userId now aid meta true
        = (db, .error .notFound))
    ∧ ((∃ r0, db.hcps.find? (fun r => r.id == id) = some r0) →
      routeAnonymizeHCP C cfg digest db id userId now aid meta true
        = ({ hcps := db.hcps.map fun r =>
               if r.id == id then
                 HCPService.anonRow digest cfg.key now
                   (encPipeline C cfg HCPService.sentinel) r
               else r
             consents := db.consents
             audit_log := db.audit_log ++
               [mkAuditEntry
                 { userId := userId, action := .delete,
                   entityType := str "hcp", entityId := some id,
                   ipAddress := meta.ip, userAgent := meta.agent,
                   metadata :=
                     some [(str "type", .jstr (str "gdpr_anonymization"))] }
                 aid now] },
           .ok ())) := by
  constructor
  · intro hfind
    simp only [routeAnonymizeHCP, HCPService.anonymize, hfind]
  · rintro ⟨r0, hfind⟩
    simp [routeAnonymizeHCP, HCPService.anonymize, hfind, encryptPII,
      hkey, bind, Except.bind, createAuditEntry]

/-- Witness for the amended C2 at the concrete fixture. -/
theorem claim_C2_witness :
    routeAnonymizeHCP C0 cfg0 digest0 db0 1 9 5 77 meta0 true
      = ({ hcps := db0.hcps.map fun r =>
             if r.id == 1 then
               HCPService.anonRow digest0 cfg0.key 5
                 (encPipeline C0 cfg0 HCPService.sentinel) r
             else r
           consents := db0.consents
           audit_log := db0.audit_log ++
             [mkAuditEntry
               { userId := 9, action := .delete, entityType := str "hcp",
                 entityId := some 1, ipAddress := meta0.ip,
                 userAgent := meta0.agent,
                 metadata :=
                   some [(str "type", .jstr (str "gdpr_anonymization"))] }
               77 5] },
         .ok ()) :=
  (claim_C2_anonymize_behaviour C0 cfg0 digest0 db0 1 9 5 77 meta0
    (by decide)).2 ⟨row0, by decide⟩

/-- C3 counterexample: after a successful anonymization of a concrete
subject, `getById` on that id fails with `notFound` — the route stamps the
deletion timestamp and `getById` filters on `deleted_at: null` — while the
claim requires `GetById` to still return a record. -/
theorem claim_C3_counterexample :
    anonResult.2 = .ok ()
    ∧ HCPService.getById C0 cfg0 anonResult.1 1 = .error .notFound := by
  decide

/-- C3 (amended): after a successful `Anonymize(id)` the subject row still
exists in storage (same row count) with `is_active = false`, its name
ciphertexts replaced by the sentinel's encryption (so they no longer match
any non-sentinel former plaintext) and email/phone erased entirely, the
consent table unchanged and the prior audit entries preserved as an
initial segment; but `GetById(id)` now fails with `notFound`, because
anonymization sets the deletion timestamp that `getById` filters out. -/
theorem claim_C3_after_anonymize (C : BlockCipher) (cfg : EncConfig)
    (digest : Str → Str) (db : DB) (id userId now aid : Nat) (meta : ReqMeta)
    (r0 : HCPRow)
    (hkey : ¬ cfg.key.isEmpty)
    (hfind : db.hcps.find? (fun r => r.id == id) = some r0)
    (hiv : cfg.iv.length = 16)
    (hDE : ∀ b, b.length = 16 → C.dec (C.enc b) = b)
    (hElen : ∀ b, b.length = 16 → (C.enc b).length = 16) :
    (routeAnonymizeHCP C cfg digest db id userId now aid meta true).2 = .ok ()
    ∧ HCPService.getById C cfg
        (routeAnonymizeHCP C cfg digest db id userId now aid meta true).1 id
        = .error .notFound
    ∧ (routeAnonymizeHCP C cfg digest db id userId now aid meta true).1.hcps.length
        = db.hcps.length
    ∧ (routeAnonymizeHCP C cfg digest db id userId now aid meta true).1.consents
        = db.consents
    ∧ (∃ t, (routeAnonymizeHCP C cfg digest db id userId now aid meta true).1.audit_log
        = db.audit_log ++ t)
    ∧ (∀ r ∈ (routeAnonymizeHCP C cfg digest db id userId now aid meta true).1.hcps,
        r.id = id →
          r.is_active = false
          ∧ r.email_encrypted = none ∧ r.phone_encrypted = none
          ∧ r.first_name_encrypted = encPipeline C cfg HCPService.sentinel
          ∧ (∀ p, decryptPII C cfg r0.first_name_encrypted = .ok p →
              p ≠ HCPService.sentinel →
              r.first_name_encrypted ≠ r0.first_name_encrypted)) := by
  have heq : routeAnonymizeHCP C cfg digest db id userId now aid meta true
      = ({ hcps := db.hcps.map fun r =>
             if r.id == id then
               HCPService.anonRow digest cfg.key now
                 (encPipeline C cfg HCPService.sentinel) r
             else r
           consents := db.consents
           audit_log := db.audit_log ++
             [mkAuditEntry
               { userId := userId, action := .delete,
                 entityType := str "hcp", entityId := some id,
                 ipAddress := meta.ip, userAgent := meta.agent,
                 metadata :=
                   some [(str "type", .jstr (str "gdpr_anonymization"))] }
               aid now] },
         .ok ()) := by
    simp [routeAnonymizeHCP, HCPService.anonymize, hfind, encryptPII,
      hkey, bind, Except.bind, createAuditEntry]
  rw [heq]
  have hrowfacts : ∀ r ∈ (db.hcps.map fun r =>
      if r.id == id then
        HCPService.anonRow digest cfg.key now
          (encPipeline C cfg HCPService.sentinel) r
      else r), r.id = id →
        r.is_active = false
        ∧ r.email_encrypted = none ∧ r.phone_encrypted = none
        ∧ r.first_name_encrypted = encPipeline C cfg HCPService.sentinel
        ∧ r.deleted_at = some now := by
    intro r hr hrid
    obtain ⟨y, hy, hyr⟩ := List.mem_map.mp hr
    by_cases hid : y.id = id
    · rw [if_pos (by simp [hid])] at hyr
      subst hyr
      exact ⟨rfl, rfl, rfl, rfl, rfl⟩
    · rw [if_neg (by simp [hid])] at hyr
      subst hyr
      exact absurd hrid hid
  refine ⟨rfl, ?_, by simp, rfl, ⟨_, rfl⟩, ?_⟩
  · have hnone : (db.hcps.map fun r =>
        if r.id == id then
          HCPService.anonRow digest cfg.key now
            (encPipeline C cfg HCPService.sentinel) r
        else r).find? (fun r => r.id == id && r.deleted_at == none) = none := by
      rw [List.find?_eq_none]
      intro x hx
      by_cases hxid : x.id = id
      · obtain ⟨_, _, _, _, hdel⟩ := hrowfacts x hx hxid
        simp [hdel]
      · simp [hxid]
    simp only [HCPService.getById]
    rw [hnone]
  · intro r hr hrid
    obtain ⟨h1, h2, h3, h4, _⟩ := hrowfacts r hr hrid
    refine ⟨h1, h2, h3, h4, ?_⟩
    intro p hp hps hcontra
    rw [h4] at hcontra
    rw [← hcontra] at hp
    rw [decrypt_encPipeline C cfg HCPService.sentinel hkey hiv hDE hElen] at hp
    cases hp
    exact hps rfl

/-- Witness for the amended C3 at the concrete fixture. -/
theorem claim_C3_witness :
    HCPService.getById C0 cfg0 anonResult.1 1 = .error .notFound
    ∧ anonResult.1.consents = db0.consents :=
  ⟨(claim_C3_after_anonymize C0 cfg0 digest0 db0 1 9 5 77 meta0 row0
      (by decide) (by decide) (by decide) (fun b _ => rfl)
      (fun b h => h)).2.1,
   (claim_C3_after_anonymize C0 cfg0 digest0 db0 1 9 5 77 meta0 row0
      (by decide) (by decide) (by decide) (fun b _ => rfl)
      (fun b h => h)).2.2.2.1⟩

/-- C4: given a subject id, the consent gate lets the request proceed
exactly when the most-recently-created consent record for the (subject,
channel) pair exists, has status `granted`, and its expiry timestamp, when
present, is not in the past; in every other case (no record, latest record
not granted, or granted but expired) it returns `consentRequired`.  The
records of the pair are assumed to carry distinct creation timestamps, so
that "most recently created" is well defined. -/
theorem claim_C4_consent_gate (db : DB) (ct : ConsentType) (hid now : Nat)
    (hdist : (consentsFor db.consents hid ct).Pairwise
      (fun a b => a.created_at ≠ b.created_at)) :
    requireConsent db ct (some hid) none now = .proceed ↔
      ∃ c ∈ consentsFor db.consents hid ct,
        (∀ c2 ∈ consentsFor db.consents hid ct, c2 ≠ c →
          c2.created_at < c.created_at)
        ∧ c.status = .granted
        ∧ (∀ e, c.expires_at = some e → ¬ e < now) := by
  have hreq : requireConsent db ct (some hid) none now =
      (match latestConsent db.consents hid ct with
       | none => ConsentCheck.consentRequired
       | some consent =>
         if consent.status != .granted then .consentRequired
         else
           match consent.expires_at with
           | some e => if e < now then .consentRequired else .proceed
           | none => .proceed) := rfl
  cases hl : latestConsent db.consents hid ct with
  | none =>
    have hnil : consentsFor db.consents hid ct = [] :=
      (latestConsent_none db.consents hid ct).mp hl
    rw [hreq]
    simp only [hl]
    exact iff_of_false (by simp) (by simp [hnil])
  | some c =>
    rw [hreq]
    simp only [hl]
    obtain ⟨hmem, hmax⟩ := latestConsent_spec db.consents hid ct c hl
    have hstrict : ∀ c2 ∈ consentsFor db.consents hid ct, c2 ≠ c →
        c2.created_at < c.created_at := by
      intro c2 h2 hne
      have hle := hmax c2 h2
      have hneq : c2.created_at ≠ c.created_at :=
        hdist.forall (fun a b h => Ne.symm h) h2 hmem hne
      exact Nat.lt_of_le_of_ne hle hneq
    constructor
    · intro hp
      by_cases hst : (c.status != ConsentStatus.granted) = true
      · rw [if_pos hst] at hp
        cases hp
      · have hg : c.status = .granted := by
          simpa [bne_iff_ne] using hst
        rw [if_neg hst] at hp
        refine ⟨c, hmem, hstrict, hg, ?_⟩
        intro e he
        rw [he] at hp
        intro hlt
        have hp2 : (if e < now then ConsentCheck.consentRequired
            else ConsentCheck.proceed) = ConsentCheck.proceed := hp
        rw [if_pos hlt] at hp2
        cases hp2
    · rintro ⟨c2, hmem2, hstrict2, hg2, hexp2⟩
      have hceq : c = c2 := by
        by_contra hne
        have h1 : c.created_at < c2.created_at := hstrict2 c hmem hne
        have h2 : c2.created_at ≤ c.created_at := hmax c2 hmem2
        omega
      subst hceq
      have hst : (c.status != ConsentStatus.granted) = false := by
        simp [bne_iff_ne, hg2]
      rw [if_neg (by simp [hst])]
      cases hexp : c.expires_at with
      | none => rfl
      | some e =>
        show (if e < now then ConsentCheck.consentRequired
          else ConsentCheck.proceed) = ConsentCheck.proceed
        rw [if_neg (hexp2 e hexp)]

/-- Witness for C4 at a two-record ledger whose latest email consent is
granted and unexpired. -/
theorem claim_C4_witness :
    requireConsent dbConsent .email (some 1) none 10 = .proceed :=
  (claim_C4_consent_gate dbConsent .email 1 10 (by decide)).mpr
    ⟨consentG, by decide, by decide, by decide,
     fun e he => Option.noConfusion he⟩

/-- C5: no operation of the trust layer ever updates or deletes an existing
`audit_log` row or `consents` row: across any sequence of trust-layer
operations from any state, the previously inserted rows of both tables
survive as an unchanged initial segment of the table, so every write is the
insertion of a new row and a consent status change is expressed as a new
record, never an update to an existing one. -/
theorem claim_C5_append_only_tables (C : BlockCipher) (cfg : EncConfig)
    (digest : Str → Str) (ops : List TrustOp) (db : DB) :
    (∃ t, (applyOps C cfg digest ops db).audit_log = db.audit_log ++ t) ∧
    (∃ t, (applyOps C cfg digest ops db).consents = db.consents ++ t) := by
  induction ops generalizing db with
  | nil => exact ⟨⟨[], by simp [applyOps]⟩, ⟨[], by simp [applyOps]⟩⟩
  | cons op rest ih =>
    obtain ⟨⟨t1, ht1⟩, ⟨t2, ht2⟩⟩ := applyOp_append_only C cfg digest op db
    obtain ⟨⟨t3, ht3⟩, ⟨t4, ht4⟩⟩ := ih (applyOp C cfg digest op db)
    have hstep : applyOps C cfg digest (op :: rest) db
        = applyOps C cfg digest rest (applyOp C cfg digest op db) := rfl
    refine ⟨⟨t1 ++ t3, ?_⟩, ⟨t2 ++ t4, ?_⟩⟩
    · rw [hstep, ht3, ht1, List.append_assoc]
    · rw [hstep, ht4, ht2, List.append_assoc]

/-- C7: with key material configured, `decryptPII` inverts `encryptPII`
(for an AES core whose block decryption inverts its block encryption on
16-byte blocks, under the configured 16-byte IV); `encryptPII` is the fixed
deterministic pipeline value under the configured key/IV pair; and
`hashForIndex` is stable across calls on the same input. -/
theorem claim_C7_vault_roundtrip (C : BlockCipher) (cfg : EncConfig)
    (digest : Str → Str) (x v : Str)
    (hkey : ¬ cfg.key.isEmpty) (hiv : cfg.iv.length = 16)
    (hDE : ∀ b, b.length = 16 → C.dec (C.enc b) = b)
    (hElen : ∀ b, b.length = 16 → (C.enc b).length = 16) :
    encryptPII C cfg x = .ok (encPipeline C cfg x)
    ∧ decryptPII C cfg (encPipeline C cfg x) = .ok x
    ∧ hashForIndex digest cfg.key v = hashForIndex digest cfg.key v :=
  ⟨by simp [encryptPII, hkey],
   decrypt_encPipeline C cfg x hkey hiv hDE hElen, rfl⟩

/-- Witness for C7: the round trip evaluated at the identity cipher, a
configured key and the zero IV, on the plaintext "ana". -/
theorem claim_C7_witness :
    encryptPII C0 cfg0 (str "ana") = .ok (encPipeline C0 cfg0 (str "ana"))
    ∧ decryptPII C0 cfg0 (encPipeline C0 cfg0 (str "ana")) = .ok (str "ana")
    ∧ hashForIndex digest0 cfg0.key (str "p")
        = hashForIndex digest0 cfg0.key (str "p") :=
  claim_C7_vault_roundtrip C0 cfg0 digest0 (str "ana") (str "p")
    (by decide) (by decide) (fun b _ => rfl) (fun b h => h)

/-- C6: `verifyDataIntegrity` loads all audit entries of the (entity type,
entity id) pair in ascending creation-time order and returns
`consistent = true` exactly when (a) a create entry exists whenever any
entry exists and (b) no update entry occurs after a delete entry; each
violated check contributes its corresponding issue to the issues list. -/
theorem claim_C6_verify_integrity (log : List AuditEntry) (t : Str) (i : Nat) :
    ((verifyDataIntegrity log t i).1 = true ↔
      ((auditEntriesFor log t i ≠ [] →
          ∃ e ∈ auditEntriesFor log t i, e.action = .create) ∧
       ¬ ∃ d u : AuditEntry, d.action = .delete ∧ u.action = .update ∧
          [d, u].Sublist (auditEntriesFor log t i)))
    ∧ ((auditEntriesFor log t i ≠ [] ∧
        ¬ ∃ e ∈ auditEntriesFor log t i, e.action = .create) →
          missingCreateMsg ∈ (verifyDataIntegrity log t i).2)
    ∧ ((∃ d u : AuditEntry, d.action = .delete ∧ u.action = .update ∧
          [d, u].Sublist (auditEntriesFor log t i)) →
          updatesAfterDeleteMsg ∈ (verifyDataIntegrity log t i).2) := by
  have hANY : ((auditEntriesFor log t i).any (fun e => e.action == .create) = true)
      ↔ ∃ e ∈ auditEntriesFor log t i, e.action = .create := by
    simp [List.any_eq_true]
  by_cases hC : (auditEntriesFor log t i).any (fun e => e.action == .create) = true
  · by_cases hU : hasUpdateAfterFirstDelete (auditEntriesFor log t i) = true
    · refine ⟨?_, ?_, ?_⟩
      · exact iff_of_false (by simp [verifyDataIntegrity, hC, hU])
          (fun h => h.2 ((hasUAFD_iff _).mp hU))
      · intro h
        exact absurd (hANY.mp hC) h.2
      · intro _
        simp [verifyDataIntegrity, hC, hU]
    · have hUf : hasUpdateAfterFirstDelete (auditEntriesFor log t i) = false :=
        Bool.eq_false_iff.mpr hU
      refine ⟨?_, ?_, ?_⟩
      · exact iff_of_true (by simp [verifyDataIntegrity, hC, hUf])
          ⟨fun _ => hANY.mp hC, fun hex2 => hU ((hasUAFD_iff _).mpr hex2)⟩
      · intro h
        exact absurd (hANY.mp hC) h.2
      · intro hex2
        exact absurd ((hasUAFD_iff _).mpr hex2) hU
  · have hCf : (auditEntriesFor log t i).any (fun e => e.action == .create)
        = false := Bool.eq_false_iff.mpr hC
    by_cases hex : auditEntriesFor log t i = []
    · refine ⟨?_, ?_, ?_⟩
      · exact iff_of_true
          (by simp [verifyDataIntegrity, hex, hasUpdateAfterFirstDelete])
          ⟨fun hne => absurd hex hne,
           fun ⟨d, u, _, _, hsub⟩ => by
             rw [hex] at hsub
             cases List.sublist_nil.mp hsub⟩
      · intro h
        exact absurd hex h.1
      · rintro ⟨d, u, _, _, hsub⟩
        rw [hex] at hsub
        cases List.sublist_nil.mp hsub
    · have hlen : (auditEntriesFor log t i).length > 0 := List.length_pos.mpr hex
      refine ⟨?_, ?_, ?_⟩
      · exact iff_of_false (by simp [verifyDataIntegrity, hCf, hlen])
          (fun ⟨hcr, _⟩ => absurd (hANY.mpr (hcr hex)) hC)
      · intro _
        simp [verifyDataIntegrity, hCf, hlen]
      · intro hexu
        simp [verifyDataIntegrity, (hasUAFD_iff _).mpr hexu]

/-- Witness for C6: the verifier applied to the empty audit log. -/
theorem claim_C6_witness : (verifyDataIntegrity [] (str "hcp") 1).1 = true := by
  have h := claim_C6_verify_integrity [] (str "hcp") 1
  refine h.1.mpr ⟨?_, ?_⟩
  · intro hne
    exact absurd rfl hne
  · rintro ⟨d, u, _, _, hsub⟩
    have hnil : auditEntriesFor [] (str "hcp") 1 = [] := rfl
    rw [hnil] at hsub
    cases List.sublist_nil.mp hsub

/-- C8 counterexample: a concrete create whose phone contains a letter
persists the phone token as the keyed digest of the phone exactly as
supplied; that token differs from the keyed digest of the lower-cased
phone, contradicting the claim that every PII field's token is the digest
of the lower-cased value. -/
theorem claim_C8_counterexample :
    db8.hcps ≠ []
    ∧ (∀ r ∈ db8.hcps,
        r.phone_hash = some (hashForIndex digest0 cfg0.key (str "800A"))
        ∧ r.phone_hash
            ≠ some (hashForIndex digest0 cfg0.key (toLower (str "800A")))) := by
  decide

/-- C8 (amended): the persisted name and email index tokens are keyed
digests of the lower-cased plaintext, so two name or email inputs
differing only in letter case receive the same token; the phone token,
however, is the keyed digest of the phone exactly as supplied, without
lower-casing. -/
theorem claim_C8_index_tokens (C : BlockCipher) (cfg : EncConfig)
    (digest : Str → Str) (input : CreateHCPInput) (id now : Nat) (db : DB)
    (hkey : ¬ cfg.key.isEmpty) :
    ∃ row, HCPService.create C cfg digest input id now db
        = .ok { db with hcps := db.hcps ++ [row] }
      ∧ row.first_name_hash
          = hashForIndex digest cfg.key (toLower input.firstName)
      ∧ row.last_name_hash
          = hashForIndex digest cfg.key (toLower input.lastName)
      ∧ row.email_hash = (input.email.bind fun e =>
          if e.isEmpty then none
          else some (hashForIndex digest cfg.key (toLower e)))
      ∧ row.phone_hash = (input.phone.bind fun p =>
          if p.isEmpty then none else some (hashForIndex digest cfg.key p))
      ∧ (∀ g : Str, toLower g = toLower input.firstName →
          hashForIndex digest cfg.key (toLower g) = row.first_name_hash) := by
  refine ⟨_, create_ok C cfg digest input id now db hkey, rfl, rfl, rfl, rfl, ?_⟩
  intro g hg
  simp [HCPService.createRow, hashForIndex, hg]

/-- Witness for the amended C8 at the concrete create fixture. -/
theorem claim_C8_witness :
    ∃ row, HCPService.create C0 cfg0 digest0 createInput0 2 5 ⟨[], [], []⟩
        = .ok ⟨[row], [], []⟩
      ∧ row.first_name_hash
          = hashForIndex digest0 cfg0.key (toLower createInput0.firstName)
      ∧ row.last_name_hash
          = hashForIndex digest0 cfg0.key (toLower createInput0.lastName)
      ∧ row.email_hash = (createInput0.email.bind fun e =>
          if e.isEmpty then none
          else some (hashForIndex digest0 cfg0.key (toLower e)))
      ∧ row.phone_hash = (createInput0.phone.bind fun p =>
          if p.isEmpty then none else some (hashForIndex digest0 cfg0.key p))
      ∧ (∀ g : Str, toLower g = toLower createInput0.firstName →
          hashForIndex digest0 cfg0.key (toLower g) = row.first_name_hash) :=
  claim_C8_index_tokens C0 cfg0 digest0 createInput0 2 5 ⟨[], [], []⟩
    (by decide)

/-- C9 counterexample: a concrete update supplying no attributes at all
still changes the stored row — its last-modification timestamp is
refreshed unconditionally — contradicting the claim that all stored fields
other than the supplied PII attributes are left untouched. -/
theorem claim_C9_counterexample :
    HCPService.update C0 cfg0 digest0 1 emptyUpdate 5 db0 = .ok db9c
    ∧ db9c.hcps ≠ db0.hcps
    ∧ (∀ r ∈ db9c.hcps, r.updated_at = 5 ∧ r.specialty = row0.specialty)
    ∧ row0.updated_at ≠ 5 := by decide

/-- C9 (amended): update on an absent or soft-deleted subject fails with
`notFound`; otherwise it applies the `updates` record to the matching
rows.  In that record, exactly the supplied PII attributes are
re-encrypted and re-indexed (names and email lower-cased for the token,
phone taken as supplied), every non-supplied column keeps its stored value
with the sole exception of the last-modification timestamp, which is
always refreshed; the identity, external id, activity flag, creation and
deletion timestamps are never touched; and the route's `update` audit
entry captures only the specialty and influence-level classification
summaries in its before/after states, never decrypted PII. -/
theorem claim_C9_update_frame (C : BlockCipher) (cfg : EncConfig)
    (digest : Str → Str) (id : Nat) (input : UpdateHCPInput) (now : Nat)
    (db db1 : DB) (userId aid : Nat) (meta : ReqMeta)
    (u : HCPService.HCPUpdates) (r : HCPRow) (prev upd : HCPRecord)
    (hkey : ¬ cfg.key.isEmpty)
    (hu : HCPService.mkUpdates C cfg digest input now = .ok u) :
    (db.hcps.find? (fun x => x.id == id && x.deleted_at == none) = none →
      HCPService.update C cfg digest id input now db = .error .notFound)
    ∧ ((∃ r0, db.hcps.find? (fun x => x.id == id && x.deleted_at == none)
          = some r0) →
      HCPService.update C cfg digest id input now db
        = .ok { db with hcps := db.hcps.map fun x =>
            if x.id == id then HCPService.applyUpdates u x else x })
    ∧ (HCPService.applyUpdates u r).updated_at = now
    ∧ (HCPService.applyUpdates u r).id = r.id
    ∧ (HCPService.applyUpdates u r).external_id = r.external_id
    ∧ (HCPService.applyUpdates u r).is_active = r.is_active
    ∧ (HCPService.applyUpdates u r).created_at = r.created_at
    ∧ (HCPService.applyUpdates u r).deleted_at = r.deleted_at
    ∧ (input.firstName = none →
        (HCPService.applyUpdates u r).first_name_encrypted
          = r.first_name_encrypted
        ∧ (HCPService.applyUpdates u r).first_name_hash = r.first_name_hash)
    ∧ (∀ v, input.firstName = some v →
        (HCPService.applyUpdates u r).first_name_encrypted
          = encPipeline C cfg v
        ∧ (HCPService.applyUpdates u r).first_name_hash
          = hashForIndex digest cfg.key (toLower v))
    ∧ (input.lastName = none →
        (HCPService.applyUpdates u r).last_name_encrypted
          = r.last_name_encrypted
        ∧ (HCPService.applyUpdates u r).last_name_hash = r.last_name_hash)
    ∧ (∀ v, input.lastName = some v →
        (HCPService.applyUpdates u r).last_name_encrypted
          = encPipeline C cfg v
        ∧ (HCPService.applyUpdates u r).last_name_hash
          = hashForIndex digest cfg.key (toLower v))
    ∧ (input.email = none →
        (HCPService.applyUpdates u r).email_encrypted = r.email_encrypted
        ∧ (HCPService.applyUpdates u r).email_hash = r.email_hash)
    ∧ (∀ v, input.email = some v →
        (HCPService.applyUpdates u r).email_encrypted
          = (if v.isEmpty then none else some (encPipeline C cfg v))
        ∧ (HCPService.applyUpdates u r).email_hash
          = (if v.isEmpty then none
             else some (hashForIndex digest cfg.key (toLower v))))
    ∧ (input.phone = none →
        (HCPService.applyUpdates u r).phone_encrypted = r.phone_encrypted
        ∧ (HCPService.applyUpdates u r).phone_hash = r.phone_hash)
    ∧ (∀ v, input.phone = some v →
        (HCPService.applyUpdates u r).phone_encrypted
          = (if v.isEmpty then none else some (encPipeline C cfg v))
        ∧ (HCPService.applyUpdates u r).phone_hash
          = (if v.isEmpty then none
             else some (hashForIndex digest cfg.key v)))
    ∧ (input.specialty = none →
        (HCPService.applyUpdates u r).specialty = r.specialty)
    ∧ (input.subSpecialty = none →
        (HCPService.applyUpdates u r).sub_specialty = r.sub_specialty)
    ∧ (input.influenceLevel = none →
        (HCPService.applyUpdates u r).influence_level = r.influence_level)
    ∧ (input.primaryInstitutionId = none →
        (HCPService.applyUpdates u r).primary_institution_id
          = r.primary_institution_id)
    ∧ (input.territoryId = none →
        (HCPService.applyUpdates u r).territory_id = r.territory_id)
    ∧ (input.title = none → (HCPService.applyUpdates u r).title = r.title)
    ∧ (input.yearsOfPractice = none →
        (HCPService.applyUpdates u r).years_of_practice
          = r.years_of_practice)
    ∧ (input.languages = none →
        (HCPService.applyUpdates u r).languages = r.languages)
    ∧ (input.therapeuticAreas = none →
        (HCPService.applyUpdates u r).therapeutic_areas
          = r.therapeutic_areas)
    ∧ (input.metadata = none →
        (HCPService.applyUpdates u r).metadata = r.metadata)
    ∧ (HCPService.getById C cfg db id = .ok prev →
        HCPService.update C cfg digest id input now db = .ok db1 →
        HCPService.getById C cfg db1 id = .ok upd →
        routeUpdateHCP C cfg digest db id input userId now aid meta true
          = ({ db1 with audit_log := db1.audit_log ++
              [mkAuditEntry
                { userId := userId, action := .update,
                  entityType := str "hcp", entityId := some id,
                  previousState := some
                    [(str "specialty", .jstr prev.specialty),
                     (str "influenceLevel", .jstr prev.influenceLevel)],
                  newState := some
                    [(str "specialty", .jstr upd.specialty),
                     (str "influenceLevel", .jstr upd.influenceLevel)],
                  ipAddress := meta.ip, userAgent := meta.agent }
                aid now] }, .ok upd)) := by
  have huval := mkUpdates_ok C cfg digest input now hkey
  rw [huval] at hu
  cases hu
  refine ⟨?_, ?_, rfl, rfl, rfl, rfl, rfl, rfl, ?_, ?_, ?_, ?_, ?_, ?_, ?_,
    ?_, ?_, ?_, ?_, ?_, ?_, ?_, ?_, ?_, ?_, ?_, ?_⟩
  · intro hnone
    simp [HCPService.update, hnone]
  · rintro ⟨r0, hfind⟩
    simp [HCPService.update, hfind, huval, bind, Except.bind]
  · intro h
    simp [HCPService.applyUpdates, HCPService.mkUpdatesRec, h]
  · intro v h
    simp [HCPService.applyUpdates, HCPService.mkUpdatesRec, h]
  · intro h
    simp [HCPService.applyUpdates, HCPService.mkUpdatesRec, h]
  · intro v h
    simp [HCPService.applyUpdates, HCPService.mkUpdatesRec, h]
  · intro h
    simp [HCPService.applyUpdates, HCPService.mkUpdatesRec, h]
  · intro v h
    simp [HCPService.applyUpdates, HCPService.mkUpdatesRec, h]
  · intro h
    simp [HCPService.applyUpdates, HCPService.mkUpdatesRec, h]
  · intro v h
    simp [HCPService.applyUpdates, HCPService.mkUpdatesRec, h]
  · intro h
    simp [HCPService.applyUpdates, HCPService.mkUpdatesRec, h]
  · intro h
    simp [HCPService.applyUpdates, HCPService.mkUpdatesRec, h]
  · intro h
    simp [HCPService.applyUpdates, HCPService.mkUpdatesRec, h]
  · intro h
    simp [HCPService.applyUpdates, HCPService.mkUpdatesRec, h]
  · intro h
    simp [HCPService.applyUpdates, HCPService.mkUpdatesRec, h]
  · intro h
    simp [HCPService.applyUpdates, HCPService.mkUpdatesRec, h]
  · intro h
    simp [HCPService.applyUpdates, HCPService.mkUpdatesRec, h]
  · intro h
    simp [HCPService.applyUpdates, HCPService.mkUpdatesRec, h]
  · intro h
    simp [HCPService.applyUpdates, HCPService.mkUpdatesRec, h]
  · intro h
    simp [HCPService.applyUpdates, HCPService.mkUpdatesRec, h]
  · intro h1 h2 h3
    simp [routeUpdateHCP, h1, h2, h3, createAuditEntry]

/-- Witness for the amended C9 at the concrete fixture. -/
theorem claim_C9_witness :
    HCPService.update C0 cfg0 digest0 1 updSpecialty 5 db0
      = .ok { db0 with hcps := db0.hcps.map fun x =>
          if x.id == 1 then HCPService.applyUpdates u0 x else x }
    ∧ (HCPService.applyUpdates u0 row0).updated_at = 5 :=
  ⟨(claim_C9_update_frame C0 cfg0 digest0 1 updSpecialty 5 db0 db1c 9 77
      meta0 u0 row0 prev0 upd0 (by decide) (by decide)).2.1
      ⟨row0, by decide⟩,
   (claim_C9_update_frame C0 cfg0 digest0 1 updSpecialty 5 db0 db1c 9 77
      meta0 u0 row0 prev0 upd0 (by decide) (by decide)).2.2.1⟩

/-- C10: when a request carries no hcpId route parameter and no hcpId body
field, the consent middleware passes it straight through: the outcome is
`proceed`, and it is identical for every database state, so no consent
record is consulted and `ConsentRequired` is never returned on this path. -/
theorem claim_C10_no_subject_id (db db2 : DB) (ct : ConsentType) (now : Nat) :
    requireConsent db ct none none now = .proceed
    ∧ requireConsent db ct none none now = requireConsent db2 ct none none now :=
  ⟨rfl, rfl⟩

end PharmaCRM
